import Mathlib

/-!
Verification development for the mg-library chat pipeline
(source file: create_library.py).

The pure core of the program is embedded shallowly: the methods of
ChatParser, QAGrouper and DatabaseManager become Lean functions over
character lists and message records.  Python sets, whose iteration order
is unspecified, are modelled by deterministic first-occurrence
de-duplication; the stable Python list sort is modelled by a stable
insertion sort; the regular-expression searches are modelled by direct
character-list matchers with the same match semantics on the fixed
pattern shapes the source uses (word characters are modelled as ASCII
alphanumerics plus the Cyrillic letters occurring in the data).
-/

namespace MgLibrary

/-- Whitespace characters recognised by the model of Python str.strip and
of the whitespace class in the source patterns (ASCII subset). -/
def isPySpace (c : Char) : Bool :=
  c = ' ' || c = '\t' || c = '\n' || c = '\r' || c = Char.ofNat 11 || c = Char.ofNat 12

/-- Model of Python str.strip: drop whitespace from both ends. -/
def stripChars (l : List Char) : List Char :=
  ((l.dropWhile isPySpace).reverse.dropWhile isPySpace).reverse

def pyStrip (s : String) : String := String.mk (stripChars s.data)

/-- Lower-casing covering ASCII and the Cyrillic range used by the source
(model of Python str.lower on the alphabets that occur). -/
def pyLower (c : Char) : Char :=
  if 'A' ≤ c ∧ c ≤ 'Z' then Char.ofNat (c.toNat + 32)
  else if 'А' ≤ c ∧ c ≤ 'Я' then Char.ofNat (c.toNat + 32)
  else if c = 'Ё' then 'ё'
  else c

/-- Code-point lexicographic order on character lists, the order Python
uses to compare strings. -/
def lexLe : List Char → List Char → Bool
  | [], _ => true
  | _ :: _, [] => false
  | a :: as, b :: bs =>
    if a.toNat < b.toNat then true
    else if b.toNat < a.toNat then false
    else lexLe as bs

def strLe (s t : String) : Bool := lexLe s.data t.data

/-- litAt? pat s returns the remainder of s after pat when s starts with
the literal pat. -/
def litAt? : List Char → List Char → Option (List Char)
  | [], s => some s
  | _ :: _, [] => none
  | p :: ps, c :: cs => if p = c then litAt? ps cs else none

/-- searchFrom f s tries the anchored matcher f at every suffix of s,
leftmost first, modelling re.search for patterns led by a literal. -/
def searchFrom (f : List Char → Option α) : List Char → Option α
  | [] => f []
  | c :: cs =>
    match f (c :: cs) with
    | some r => some r
    | none => searchFrom f cs

/-- Substring test (model of the Python in operator on strings). -/
def hasSub (pat : List Char) : List Char → Bool
  | [] => (litAt? pat []).isSome
  | c :: cs => (litAt? pat (c :: cs)).isSome || hasSub pat cs

def digitsToNat (l : List Char) : Nat :=
  l.foldl (fun n c => 10 * n + (c.toNat - 48)) 0

/-- Model of int(s) guarded by s.isdigit() on ASCII digit strings. -/
def strToNat? (s : String) : Option Nat :=
  if s.data ≠ [] ∧ s.data.all Char.isDigit then some (digitsToNat s.data) else none

/-- First-occurrence de-duplication, the deterministic model used for the
Python idiom list(set(xs)) whose order is unspecified. -/
def dedupAux (seen : List String) : List String → List String
  | [] => []
  | x :: xs => if x ∈ seen then dedupAux seen xs else x :: dedupAux (x :: seen) xs

def pyDedup (l : List String) : List String := dedupAux [] l

/-- Character class of the hashtag pattern: word characters (ASCII
alphanumerics, underscore, Cyrillic letters), digits and hyphen. -/
def isTagChar (c : Char) : Bool :=
  if ('a' ≤ c ∧ c ≤ 'z') ∨ ('A' ≤ c ∧ c ≤ 'Z') ∨ ('0' ≤ c ∧ c ≤ '9') then true
  else if c = '_' ∨ c = '-' then true
  else if ('а' ≤ c ∧ c ≤ 'я') ∨ ('А' ≤ c ∧ c ≤ 'Я') ∨ c = 'ё' ∨ c = 'Ё' then true
  else false

/-- Scanner for the findall of the hashtag pattern: a hash sign followed by
a maximal nonempty run of tag characters; the state holds the run being
accumulated after a hash sign. -/
def findTagsAux (st : Option (List Char)) : List Char → List (List Char)
  | [] =>
    match st with
    | none => []
    | some acc => if acc = [] then [] else [('#' :: acc)]
  | c :: cs =>
    match st with
    | none => if c = '#' then findTagsAux (some []) cs else findTagsAux none cs
    | some acc =>
      if isTagChar c then findTagsAux (some (acc ++ [c])) cs
      else
        (if acc = [] then [] else [('#' :: acc)]) ++
          (if c = '#' then findTagsAux (some []) cs else findTagsAux none cs)

def findTags (s : String) : List String :=
  (findTagsAux none s.data).map String.mk

/-- Anchored matcher for the message-start pattern: the literal Сообщение,
optional whitespace, a hash sign, then a captured nonempty digit run. -/
def msgStartHere (cs : List Char) : Option (List Char) :=
  match litAt? "Сообщение".data cs with
  | none => none
  | some rest =>
    match rest.dropWhile isPySpace with
    | '#' :: r =>
      let ds := r.takeWhile Char.isDigit
      if ds = [] then none else some ds
    | _ => none

def findMsgNum (s : String) : Option String :=
  (searchFrom msgStartHere s.data).map String.mk

/-- Capture for the sender and date patterns after their literal: the run
of non-bullet characters before a bullet, nonempty, bullet present.  The
source strips the capture, so the whitespace absorbed by the greedy and
lazy parts around the group is immaterial. -/
def bulletCapture (cs : List Char) : Option (List Char) :=
  let run := cs.takeWhile (fun c => c ≠ '•')
  let rest := cs.dropWhile (fun c => c ≠ '•')
  if run = [] then none
  else
    match rest with
    | [] => none
    | _ :: _ => some run

def senderHere (cs : List Char) : Option (List Char) :=
  (litAt? "От:".data cs).bind bulletCapture

def findSender (s : String) : Option String :=
  (searchFrom senderHere s.data).map String.mk

def dateHere (cs : List Char) : Option (List Char) :=
  (litAt? "Дата:".data cs).bind bulletCapture

def findDate (s : String) : Option String :=
  (searchFrom dateHere s.data).map String.mk

/-- Capture after the id and reply-to literals: optional whitespace then a
captured nonempty digit run. -/
def numCapture (cs : List Char) : Option (List Char) :=
  let ds := (cs.dropWhile isPySpace).takeWhile Char.isDigit
  if ds = [] then none else some ds

def idHere (cs : List Char) : Option (List Char) :=
  (litAt? "ID:".data cs).bind numCapture

def findId (s : String) : Option String :=
  (searchFrom idHere s.data).map String.mk

def replyHere (cs : List Char) : Option (List Char) :=
  (litAt? "Ответ на сообщение:".data cs).bind numCapture

def findReply (s : String) : Option String :=
  (searchFrom replyHere s.data).map String.mk

/-- Divider test of process_message_content: the block contains any of the
three divider glyph sequences anywhere. -/
def hasDivider (s : String) : Bool :=
  hasSub "――".data s.data || hasSub "─".data s.data || hasSub "―".data s.data

def violettaMarker : List Char := "ответвиолетты".data

/-- Test whether a tag carries the official-answer marker, case-insensitively. -/
def hasMarker (tag : String) : Bool :=
  hasSub violettaMarker (tag.data.map pyLower)

/-- Record of one transcript entry (the ChatMessage dataclass). -/
structure ChatMessage where
  message_number : String
  sender : String
  date : String
  message_id : String
  reply_to : String
  text : String
  tags : List String
  is_violetta_answer : Bool
  deriving DecidableEq, Repr

def create_new_message (t : String) : ChatMessage :=
  { message_number := (findMsgNum t).getD ""
    sender := ""
    date := ""
    message_id := ""
    reply_to := ""
    text := ""
    tags := []
    is_violetta_answer := false }

def is_message_start (t : String) : Bool :=
  (findMsgNum t).isSome || hasSub "――――――".data t.data

def process_message_content (m : ChatMessage) (t : String) : ChatMessage :=
  if hasDivider t then m
  else
    let m1 :=
      if m.sender = "" then
        match findSender t with
        | some cap => { m with sender := pyStrip cap }
        | none => m
      else m
    let m2 :=
      if m1.date = "" then
        match findDate t with
        | some cap => { m1 with date := pyStrip cap }
        | none => m1
      else m1
    let m3 :=
      if m2.message_id = "" then
        match findId t with
        | some cap => { m2 with message_id := cap }
        | none => m2
      else m2
    let m4 :=
      if m3.reply_to = "" then
        match findReply t with
        | some cap => { m3 with reply_to := cap }
        | none => m3
      else m3
    if findSender t = none ∧ findDate t = none ∧ findId t = none ∧ findReply t = none then
      { m4 with
        text := if m4.text = "" then t else m4.text ++ "\n" ++ t
        tags := m4.tags ++ pyDedup (findTags t) }
    else m4

/-- One step of the paragraph loop of parse_word_document: state is the
output list so far and the optional current accumulator. -/
def parseStep (st : List ChatMessage × Option ChatMessage) (block : String) :
    List ChatMessage × Option ChatMessage :=
  let text := pyStrip block
  if text = "" then st
  else if is_message_start text then
    (match st.2 with
     | some cur => if cur.text ≠ "" then st.1 ++ [cur] else st.1
     | none => st.1,
     some (create_new_message text))
  else
    match st.2 with
    | some cur => (st.1, some (process_message_content cur text))
    | none => st

/-- Post-pass identify_violetta_answers on one message. -/
def identify_violetta (m : ChatMessage) : ChatMessage :=
  { m with is_violetta_answer := m.tags.any hasMarker }

/-- Model of parse_word_document on the ordered paragraph texts of the
document (document reading and console output are external collaborators). -/
def parse_word_document (blocks : List String) : List ChatMessage :=
  let st := blocks.foldl parseStep ([], none)
  let messages :=
    st.1 ++
      (match st.2 with
       | some cur => if cur.text ≠ "" then [cur] else []
       | none => [])
  messages.map identify_violetta

/-- Record of one reconstructed question/answer unit (the dict built by
create_qa_pair). -/
structure QAPair where
  question_ids : List String
  question_text : String
  question_sender : String
  question_date : String
  answer_ids : List String
  answer_text : String
  tags : List String
  answer_date : String
  deriving DecidableEq, Repr

/-- Model of the messages_by_id dict built in the QAGrouper constructor:
messages with empty ids are not inserted, later entries overwrite earlier
ones for a duplicated id. -/
def messagesById (msgs : List ChatMessage) (i : String) : Option ChatMessage :=
  if i = "" then none else (msgs.filter (fun m => m.message_id = i)).getLast?

def seqNum (m : ChatMessage) : Nat := (strToNat? m.message_number).getD 0

def seqLe (a b : ChatMessage) : Bool := decide (seqNum a ≤ seqNum b)

/-- Stable insertion of one element into a list, placing it before the
first element it is not greater than. -/
def insertLe (le : α → α → Bool) (a : α) : List α → List α
  | [] => [a]
  | x :: xs => if le a x then a :: x :: xs else x :: insertLe le a xs

/-- Stable insertion sort, the model of the stable Python list sort. -/
def sortLe (le : α → α → Bool) : List α → List α
  | [] => []
  | x :: xs => insertLe le x (sortLe le xs)

def find_question_thread (msgs : List ChatMessage) (start_message_id : String) :
    List ChatMessage :=
  match messagesById msgs start_message_id with
  | none => []
  | some start =>
    if start.reply_to = "" then [start]
    else
      sortLe seqLe (msgs.filter (fun m =>
        m.reply_to = start.reply_to ∧ m.sender = start.sender ∧ m.is_violetta_answer = false))

/-- Nonempty ids of a thread, in thread order (the comprehension
[msg.message_id for msg in thread if msg.message_id]). -/
def nonemptyIds (thread : List ChatMessage) : List String :=
  (thread.filter (fun m => m.message_id ≠ "")).map (fun m => m.message_id)

def find_answer_thread (msgs : List ChatMessage) (question_thread : List ChatMessage) :
    List ChatMessage :=
  sortLe seqLe (msgs.filter (fun m =>
    m.is_violetta_answer = true ∧ m.reply_to ∈ nonemptyIds question_thread))

/-- Join of the nonempty body texts of a thread with blank-line separators. -/
def joinTexts (thread : List ChatMessage) : String :=
  String.intercalate "\n\n" ((thread.filter (fun m => m.text ≠ "")).map (fun m => m.text))

/-- Tags of a question/answer pair: every tag of every answer-thread
message, de-duplicated (list(set(...)) in the source). -/
def allAnswerTags (answer_thread : List ChatMessage) : List String :=
  pyDedup (answer_thread.foldl (fun acc m => acc ++ m.tags) [])

def create_qa_pair (question_thread answer_thread : List ChatMessage) : QAPair :=
  { question_ids := nonemptyIds question_thread
    question_text := joinTexts question_thread
    question_sender := ((question_thread.head?).map (fun m => m.sender)).getD ""
    question_date := ((question_thread.head?).map (fun m => m.date)).getD ""
    answer_ids := nonemptyIds answer_thread
    answer_text := joinTexts answer_thread
    tags := allAnswerTags answer_thread
    answer_date := ((answer_thread.getLast?).map (fun m => m.date)).getD "" }

/-- Canonical key of a question thread: its sorted nonempty ids
(tuple(sorted(...)) in the source). -/
def question_key (question_thread : List ChatMessage) : List String :=
  sortLe strLe (nonemptyIds question_thread)

/-- Body of the loop of group_questions_answers for one candidate answer:
state is the pair list so far and the processed canonical keys. -/
def groupStep (msgs : List ChatMessage) (st : List QAPair × List (List String))
    (answer : ChatMessage) : List QAPair × List (List String) :=
  if answer.reply_to = "" then st
  else
    let question_thread := find_question_thread msgs answer.reply_to
    if question_thread = [] then st
    else
      let key := question_key question_thread
      if key ∈ st.2 then st
      else
        (st.1 ++ [create_qa_pair question_thread (find_answer_thread msgs question_thread)],
         key :: st.2)

def group_questions_answers (msgs : List ChatMessage) : List QAPair :=
  ((msgs.filter (fun m => m.is_violetta_answer = true)).foldl (groupStep msgs) ([], [])).1

/-- Case-insensitive alphabetical comparison of tags (sort key str.lower). -/
def lowerLe (a b : String) : Bool := lexLe (a.data.map pyLower) (b.data.map pyLower)

/-- Model of sort_tags_alphabetical: pin the first tag carrying the
official-answer marker, sort the rest case-insensitively. -/
def sort_tags_alphabetical (tags : List String) : List String :=
  match tags.find? hasMarker with
  | some answer_tag => answer_tag :: sortLe lowerLe (tags.erase answer_tag)
  | none => sortLe lowerLe tags

/-- A question/answer pair p was emitted for the driving answer a: a has a
nonempty reply target, the recovered question thread is nonempty, and p is
the pair built from that thread and its answer thread. -/
def EmittedFrom (msgs : List ChatMessage) (a : ChatMessage) (p : QAPair) : Prop :=
  a.reply_to ≠ "" ∧
  find_question_thread msgs a.reply_to ≠ [] ∧
  p = create_qa_pair (find_question_thread msgs a.reply_to)
        (find_answer_thread msgs (find_question_thread msgs a.reply_to))

/-- Loop invariant of group_questions_answers: canonical keys of the
emitted pairs are distinct and recorded among the processed keys. -/
def KeysInv (st : List QAPair × List (List String)) : Prop :=
  (st.1.map (fun p => sortLe strLe p.question_ids)).Nodup ∧
  ∀ k, k ∈ st.1.map (fun p => sortLe strLe p.question_ids) → k ∈ st.2

section InputData

/-- Ancestor message of the worked example. -/
def wQ0 : ChatMessage := ⟨"1", "Alice", "d0", "5", "", "intro", [], false⟩

/-- First question message of the worked example. -/
def wQ1 : ChatMessage := ⟨"2", "Alice", "d1", "10", "5", "how to focus", [], false⟩

/-- Second question message of the worked example (the reply target of the
official answer). -/
def wQ2 : ChatMessage := ⟨"3", "Alice", "d2", "11", "5", "and why", [], false⟩

/-- Official answer of the worked example, replying to wQ2. -/
def wAns : ChatMessage :=
  ⟨"4", "Violetta", "d3", "20", "11", "focus answer #ответвиолетты", ["#ответвиолетты"], true⟩

def wMsgs : List ChatMessage := [wQ0, wQ1, wQ2, wAns]

/-- The single pair the grouper emits on wMsgs. -/
def wPair : QAPair :=
  ⟨["10", "11"], "how to focus\n\nand why", "Alice", "d1", ["20"],
    "focus answer #ответвиолетты", ["#ответвиолетты"], "d3"⟩

/-- Official answer whose reply target is no known id. -/
def wBad : ChatMessage :=
  ⟨"5", "Violetta", "d4", "21", "99", "no target", ["#ответвиолетты"], true⟩

/-- Input refuting claim C1: mB is an official answer to the root mA, and
mV is an official answer to mB; resolving the reply target of mV excludes
mB from the question thread (it is an official answer), leaving the
sibling mC as the thread, into which no official answer replies. -/
def c1A : ChatMessage := ⟨"1", "u", "d1", "1", "", "root", [], false⟩

def c1C : ChatMessage := ⟨"2", "v", "d2", "3", "1", "note", [], false⟩

def c1B : ChatMessage := ⟨"3", "v", "d3", "2", "1", "ans1", ["#ответвиолетты"], true⟩

def c1V : ChatMessage := ⟨"4", "v", "d4", "4", "2", "ans2", ["#ответвиолетты"], true⟩

def c1Msgs : List ChatMessage := [c1A, c1C, c1B, c1V]

/-- The second pair emitted on c1Msgs: its answer thread is empty. -/
def c1Pair : QAPair := ⟨["3"], "note", "v", "d2", [], "", [], ""⟩

/-- Accumulator state and block refuting claim C2: the block contains a
divider glyph amid ordinary words, so it matches no metadata pattern and
is not purely decorative, yet it is skipped. -/
def c2Msg : ChatMessage := create_new_message "Сообщение #1"

def c2Block : String := "привет ― мир"

def c2wMsg : ChatMessage := create_new_message "Сообщение #2"

def c2wBlock : String := "привет #тема"

def c9Blocks : List String := ["Сообщение #1", "hi"]

def c9Msg : ChatMessage := ⟨"1", "", "", "", "", "hi", [], false⟩

def wPre : List String := ["привет", "просто текст"]

def wTags : List String := ["#b", "#ответвиолетты", "#A"]

end InputData

/-! Permutation and sortedness of the stable insertion sort. -/

theorem insertLe_perm (le : α → α → Bool) (a : α) (l : List α) :
    (insertLe le a l).Perm (a :: l) := by
  induction l with
  | nil => exact List.Perm.refl _
  | cons x xs ih =>
    simp only [insertLe]
    split
    · exact List.Perm.refl _
    · exact (ih.cons x).trans (List.Perm.swap a x xs)

theorem sortLe_perm (le : α → α → Bool) (l : List α) : (sortLe le l).Perm l := by
  induction l with
  | nil => exact List.Perm.refl _
  | cons x xs ih =>
    simp only [sortLe]
    exact (insertLe_perm le x (sortLe le xs)).trans (ih.cons x)

theorem pairwise_insertLe (le : α → α → Bool)
    (htrans : ∀ a b c, le a b = true → le b c = true → le a c = true)
    (htot : ∀ a b, le a b = true ∨ le b a = true)
    (a : α) (l : List α) (h : l.Pairwise (fun x y => le x y = true)) :
    (insertLe le a l).Pairwise (fun x y => le x y = true) := by
  induction l with
  | nil => simp [insertLe]
  | cons x xs ih =>
    rcases List.pairwise_cons.mp h with ⟨hx, hxs⟩
    simp only [insertLe]
    split
    case isTrue hax =>
      refine List.pairwise_cons.mpr ⟨?_, h⟩
      intro y hy
      rcases List.mem_cons.mp hy with rfl | hy'
      · exact hax
      · exact htrans a x y hax (hx y hy')
    case isFalse hax =>
      have hxa : le x a = true := (htot a x).resolve_left hax
      refine List.pairwise_cons.mpr ⟨?_, ih hxs⟩
      intro y hy
      have hy2 := (insertLe_perm le a xs).mem_iff.mp hy
      rcases List.mem_cons.mp hy2 with rfl | hy'
      · exact hxa
      · exact hx y hy'

theorem pairwise_sortLe (le : α → α → Bool)
    (htrans : ∀ a b c, le a b = true → le b c = true → le a c = true)
    (htot : ∀ a b, le a b = true ∨ le b a = true)
    (l : List α) : (sortLe le l).Pairwise (fun x y => le x y = true) := by
  induction l with
  | nil => simp [sortLe]
  | cons x xs ih => exact pairwise_insertLe le htrans htot x _ ih

/-! Totality and transitivity of the comparison functions. -/

theorem lexLe_cons_iff (x y : Char) (xs ys : List Char) :
    lexLe (x :: xs) (y :: ys) = true ↔
      x.toNat < y.toNat ∨ (x.toNat = y.toNat ∧ lexLe xs ys = true) := by
  simp only [lexLe]
  rcases Nat.lt_trichotomy x.toNat y.toNat with h | h | h
  · simp [h]
  · have h1 : ¬ x.toNat < y.toNat := by omega
    have h2 : ¬ y.toNat < x.toNat := by omega
    simp [h1, h2, h]
  · have h1 : ¬ x.toNat < y.toNat := by omega
    have h2 : x.toNat ≠ y.toNat := by omega
    simp [h1, h, h2]

theorem lexLe_total : ∀ a b : List Char, lexLe a b = true ∨ lexLe b a = true := by
  intro a
  induction a with
  | nil => intro b; left; simp [lexLe]
  | cons c cs ih =>
    intro b
    cases b with
    | nil => right; simp [lexLe]
    | cons d ds =>
      rw [lexLe_cons_iff, lexLe_cons_iff]
      rcases Nat.lt_trichotomy c.toNat d.toNat with h | h | h
      · left; exact Or.inl h
      · rcases ih ds with h' | h'
        · exact Or.inl (Or.inr ⟨h, h'⟩)
        · exact Or.inr (Or.inr ⟨h.symm, h'⟩)
      · right; exact Or.inl h

theorem lexLe_trans :
    ∀ a b c : List Char, lexLe a b = true → lexLe b c = true → lexLe a c = true := by
  intro a
  induction a with
  | nil => intro b c _ _; cases c <;> simp [lexLe]
  | cons x xs ih =>
    intro b c hab hbc
    cases b with
    | nil => simp [lexLe] at hab
    | cons y ys =>
      cases c with
      | nil => simp [lexLe] at hbc
      | cons z zs =>
        rw [lexLe_cons_iff] at hab hbc ⊢
        rcases hab with h1 | ⟨h1, h1'⟩ <;> rcases hbc with h2 | ⟨h2, h2'⟩
        · exact Or.inl (by omega)
        · exact Or.inl (by omega)
        · exact Or.inl (by omega)
        · exact Or.inr ⟨by omega, ih ys zs h1' h2'⟩

theorem strLe_total : ∀ a b : String, strLe a b = true ∨ strLe b a = true := by
  intro a b; exact lexLe_total a.data b.data

theorem strLe_trans :
    ∀ a b c : String, strLe a b = true → strLe b c = true → strLe a c = true := by
  intro a b c; exact lexLe_trans a.data b.data c.data

theorem lowerLe_total : ∀ a b : String, lowerLe a b = true ∨ lowerLe b a = true := by
  intro a b; exact lexLe_total _ _

theorem lowerLe_trans :
    ∀ a b c : String, lowerLe a b = true → lowerLe b c = true → lowerLe a c = true := by
  intro a b c; exact lexLe_trans _ _ _

theorem seqLe_iff (a b : ChatMessage) : seqLe a b = true ↔ seqNum a ≤ seqNum b := by
  simp [seqLe]

theorem seqLe_total : ∀ a b : ChatMessage, seqLe a b = true ∨ seqLe b a = true := by
  intro a b
  rcases Nat.le_total (seqNum a) (seqNum b) with h | h
  · exact Or.inl ((seqLe_iff a b).mpr h)
  · exact Or.inr ((seqLe_iff b a).mpr h)

theorem seqLe_trans :
    ∀ a b c : ChatMessage, seqLe a b = true → seqLe b c = true → seqLe a c = true := by
  intro a b c h1 h2
  exact (seqLe_iff a c).mpr (Nat.le_trans ((seqLe_iff a b).mp h1) ((seqLe_iff b c).mp h2))

/-! De-duplication lemmas. -/

theorem mem_dedupAux :
    ∀ (l seen : List String) (x : String), x ∈ dedupAux seen l ↔ x ∈ l ∧ x ∉ seen := by
  intro l
  induction l with
  | nil => intro seen x; simp [dedupAux]
  | cons y ys ih =>
    intro seen x
    simp only [dedupAux]
    split
    case isTrue hy =>
      rw [ih]
      constructor
      · rintro ⟨hx, hns⟩
        exact ⟨List.mem_cons_of_mem _ hx, hns⟩
      · rintro ⟨hx, hns⟩
        rcases List.mem_cons.mp hx with rfl | hx'
        · exact absurd hy hns
        · exact ⟨hx', hns⟩
    case isFalse hy =>
      constructor
      · intro hx
        rcases List.mem_cons.mp hx with rfl | hx'
        · exact ⟨List.mem_cons_self _ _, hy⟩
        · rcases (ih _ _).mp hx' with ⟨h1, h2⟩
          refine ⟨List.mem_cons_of_mem _ h1, fun hs => h2 (List.mem_cons_of_mem _ hs)⟩
      · rintro ⟨hx, hns⟩
        rcases List.mem_cons.mp hx with rfl | hx'
        · exact List.mem_cons_self _ _
        · by_cases hxy : x = y
          · subst hxy; exact List.mem_cons_self _ _
          · refine List.mem_cons_of_mem _ ((ih _ _).mpr ⟨hx', fun hs => ?_⟩)
            rcases List.mem_cons.mp hs with h | h
            · exact hxy h
            · exact hns h

theorem nodup_dedupAux : ∀ (l seen : List String), (dedupAux seen l).Nodup := by
  intro l
  induction l with
  | nil => intro seen; simp [dedupAux]
  | cons y ys ih =>
    intro seen
    simp only [dedupAux]
    split
    · exact ih seen
    · refine List.nodup_cons.mpr ⟨fun hy => ?_, ih _⟩
      rcases (mem_dedupAux ys (y :: seen) y).mp hy with ⟨_, hns⟩
      exact hns (List.mem_cons_self _ _)

theorem mem_pyDedup (l : List String) (x : String) : x ∈ pyDedup l ↔ x ∈ l := by
  unfold pyDedup
  rw [mem_dedupAux]
  simp

theorem nodup_pyDedup (l : List String) : (pyDedup l).Nodup := nodup_dedupAux l []

/-- Membership in the tag-collecting fold of create_qa_pair. -/
theorem mem_foldl_tags :
    ∀ (l : List ChatMessage) (acc : List String) (t : String),
      t ∈ l.foldl (fun acc m => acc ++ m.tags) acc ↔
        t ∈ acc ∨ ∃ m, m ∈ l ∧ t ∈ m.tags := by
  intro l
  induction l with
  | nil => intro acc t; simp
  | cons x xs ih =>
    intro acc t
    rw [List.foldl_cons, ih]
    constructor
    · rintro (h | ⟨m, hm, ht⟩)
      · rcases List.mem_append.mp h with h' | h'
        · exact Or.inl h'
        · exact Or.inr ⟨x, List.mem_cons_self _ _, h'⟩
      · exact Or.inr ⟨m, List.mem_cons_of_mem _ hm, ht⟩
    · rintro (h | ⟨m, hm, ht⟩)
      · exact Or.inl (List.mem_append.mpr (Or.inl h))
      · rcases List.mem_cons.mp hm with rfl | hm'
        · exact Or.inl (List.mem_append.mpr (Or.inr ht))
        · exact Or.inr ⟨m, hm', ht⟩

/-! Lookup and thread lemmas. -/

theorem mem_of_getLast? {α : Type} : ∀ {l : List α} {a : α}, l.getLast? = some a → a ∈ l := by
  intro l
  induction l with
  | nil => intro a h; simp [List.getLast?] at h
  | cons x xs ih =>
    intro a h
    cases xs with
    | nil =>
      simp [List.getLast?] at h
      simp [h]
    | cons y ys =>
      rw [List.getLast?_cons_cons] at h
      exact List.mem_cons_of_mem _ (ih h)

theorem messagesById_some {msgs : List ChatMessage} {i : String} {start : ChatMessage}
    (h : messagesById msgs i = some start) :
    start ∈ msgs ∧ start.message_id = i ∧ i ≠ "" := by
  unfold messagesById at h
  split at h
  · exact absurd h (by simp)
  case isFalse hne =>
    have hmem := mem_of_getLast? h
    rcases List.mem_filter.mp hmem with ⟨h1, h2⟩
    exact ⟨h1, by simpa using h2, hne⟩

theorem pairwise_find_question_thread (msgs : List ChatMessage) (rid : String) :
    (find_question_thread msgs rid).Pairwise (fun x y => seqNum x ≤ seqNum y) := by
  unfold find_question_thread
  split
  · simp
  · split
    · simp
    · exact (pairwise_sortLe seqLe seqLe_trans seqLe_total _).imp
        (fun h => (seqLe_iff _ _).mp h)

theorem find_question_thread_perm {msgs : List ChatMessage} {rid : String}
    {start : ChatMessage} (hlook : messagesById msgs rid = some start)
    (hroot : start.reply_to ≠ "") :
    (find_question_thread msgs rid).Perm (msgs.filter (fun m =>
      m.reply_to = start.reply_to ∧ m.sender = start.sender ∧
        m.is_violetta_answer = false)) := by
  simp only [find_question_thread, hlook, if_neg hroot]
  exact sortLe_perm _ _

theorem find_answer_thread_perm (msgs : List ChatMessage) (qt : List ChatMessage) :
    (find_answer_thread msgs qt).Perm (msgs.filter (fun m =>
      m.is_violetta_answer = true ∧ m.reply_to ∈ nonemptyIds qt)) :=
  sortLe_perm _ _

theorem pairwise_find_answer_thread (msgs : List ChatMessage) (qt : List ChatMessage) :
    (find_answer_thread msgs qt).Pairwise (fun x y => seqNum x ≤ seqNum y) :=
  (pairwise_sortLe seqLe seqLe_trans seqLe_total _).imp (fun h => (seqLe_iff _ _).mp h)

/-! Structure of the grouping fold. -/

theorem groupStep_cases (msgs : List ChatMessage) (st : List QAPair × List (List String))
    (a : ChatMessage) :
    groupStep msgs st a = st ∨
      (find_question_thread msgs a.reply_to ≠ [] ∧
        question_key (find_question_thread msgs a.reply_to) ∉ st.2 ∧
        groupStep msgs st a =
          (st.1 ++ [create_qa_pair (find_question_thread msgs a.reply_to)
              (find_answer_thread msgs (find_question_thread msgs a.reply_to))],
            question_key (find_question_thread msgs a.reply_to) :: st.2) ∧
        EmittedFrom msgs a (create_qa_pair (find_question_thread msgs a.reply_to)
          (find_answer_thread msgs (find_question_thread msgs a.reply_to)))) := by
  by_cases h0 : a.reply_to = ""
  · left; simp [groupStep, h0]
  · by_cases h1 : find_question_thread msgs a.reply_to = []
    · left; simp [groupStep, h0, h1]
    · by_cases h2 : question_key (find_question_thread msgs a.reply_to) ∈ st.2
      · left; simp [groupStep, h0, h1, h2]
      · exact Or.inr ⟨h1, h2, by simp [groupStep, h0, h1, h2], h0, h1, rfl⟩

theorem mem_foldl_groupStep (msgs : List ChatMessage) :
    ∀ (answers : List ChatMessage) (st : List QAPair × List (List String)) (p : QAPair),
      p ∈ (answers.foldl (groupStep msgs) st).1 →
      p ∈ st.1 ∨ ∃ a, a ∈ answers ∧ EmittedFrom msgs a p := by
  intro answers
  induction answers with
  | nil => intro st p hp; exact Or.inl hp
  | cons a as ih =>
    intro st p hp
    rw [List.foldl_cons] at hp
    rcases ih _ p hp with h | ⟨b, hb, hem⟩
    · rcases groupStep_cases msgs st a with hc | ⟨_, _, hc, hem⟩
      · rw [hc] at h
        exact Or.inl h
      · rw [hc] at h
        rcases List.mem_append.mp h with h1 | h1
        · exact Or.inl h1
        · rw [List.mem_singleton.mp h1]
          exact Or.inr ⟨a, List.mem_cons_self _ _, hem⟩
    · exact Or.inr ⟨b, List.mem_cons_of_mem _ hb, hem⟩

/-- Every emitted pair is driven by some official-answer message of the
input, with a nonempty question thread. -/
theorem mem_group (msgs : List ChatMessage) (p : QAPair)
    (hp : p ∈ group_questions_answers msgs) :
    ∃ a, a ∈ msgs ∧ a.is_violetta_answer = true ∧ EmittedFrom msgs a p := by
  unfold group_questions_answers at hp
  rcases mem_foldl_groupStep msgs _ _ _ hp with h | ⟨a, ha, hem⟩
  · simp at h
  · rcases List.mem_filter.mp ha with ⟨h1, h2⟩
    exact ⟨a, h1, by simpa using h2, hem⟩

theorem groupStep_keysInv (msgs : List ChatMessage)
    (st : List QAPair × List (List String)) (a : ChatMessage)
    (h : KeysInv st) : KeysInv (groupStep msgs st a) := by
  rcases groupStep_cases msgs st a with hc | ⟨_, hnk, hc, _⟩
  · rw [hc]; exact h
  · rw [hc]
    rcases h with ⟨hnd, hsub⟩
    have hkey : sortLe strLe (create_qa_pair (find_question_thread msgs a.reply_to)
        (find_answer_thread msgs (find_question_thread msgs a.reply_to))).question_ids =
        question_key (find_question_thread msgs a.reply_to) := rfl
    constructor
    · rw [List.map_append]
      rw [List.nodup_append]
      refine ⟨hnd, by simp, ?_⟩
      intro k hk
      simp only [List.map_cons, List.map_nil, List.mem_singleton, hkey]
      intro hkq
      exact hnk (hkq ▸ hsub k hk)
    · intro k hk
      rw [List.map_append] at hk
      rcases List.mem_append.mp hk with h1 | h1
      · exact List.mem_cons_of_mem _ (hsub k h1)
      · simp only [List.map_cons, List.map_nil, List.mem_singleton, hkey] at h1
        rw [h1]
        exact List.mem_cons_self _ _

theorem foldl_groupStep_keysInv (msgs : List ChatMessage) :
    ∀ (answers : List ChatMessage) (st : List QAPair × List (List String)),
      KeysInv st → KeysInv (answers.foldl (groupStep msgs) st) := by
  intro answers
  induction answers with
  | nil => intro st h; exact h
  | cons a as ih =>
    intro st h
    rw [List.foldl_cons]
    exact ih _ (groupStep_keysInv msgs st a h)

/-! Invariants of the paragraph loop. -/

theorem parseStep_texts :
    ∀ (st : List ChatMessage × Option ChatMessage) (b : String),
      (∀ m ∈ st.1, m.text ≠ "") → ∀ m ∈ (parseStep st b).1, m.text ≠ "" := by
  rintro ⟨msgs, cur?⟩ b h
  unfold parseStep
  dsimp only
  split
  · exact h
  · split
    · cases cur? with
      | none => exact h
      | some cur =>
        dsimp only
        split
        case isTrue hcur =>
          intro m hm
          rcases List.mem_append.mp hm with h1 | h1
          · exact h m h1
          · rw [List.mem_singleton.mp h1]
            exact hcur
        · exact h
    · cases cur? with
      | none => exact h
      | some cur => exact h

theorem foldl_parseStep_texts :
    ∀ (blocks : List String) (st : List ChatMessage × Option ChatMessage),
      (∀ m ∈ st.1, m.text ≠ "") → ∀ m ∈ (blocks.foldl parseStep st).1, m.text ≠ "" := by
  intro blocks
  induction blocks with
  | nil => intro st h; exact h
  | cons b bs ih =>
    intro st h
    rw [List.foldl_cons]
    exact ih _ (parseStep_texts st b h)

theorem parseStep_inert (b : String) (h : is_message_start (pyStrip b) = false) :
    parseStep ([], none) b = ([], none) := by
  unfold parseStep
  dsimp only
  split
  · rfl
  · split
    case isTrue h' => rw [h] at h'; exact absurd h' (by simp)
    · rfl

theorem foldl_parseStep_inert :
    ∀ (pre : List String), (∀ b ∈ pre, is_message_start (pyStrip b) = false) →
      pre.foldl parseStep ([], none) = ([], none) := by
  intro pre
  induction pre with
  | nil => intro _; rfl
  | cons b bs ih =>
    intro h
    rw [List.foldl_cons, parseStep_inert b (h b (List.mem_cons_self _ _))]
    exact ih (fun x hx => h x (List.mem_cons_of_mem _ hx))

/-- C9: every Message in the output of the paragraph loop has non-empty
body text: an accumulator that never receives body content is discarded,
both when a new start marker arrives and at end of input. -/
theorem c9_nonempty_text :
    ∀ (blocks : List String) (m : ChatMessage),
      m ∈ parse_word_document blocks → m.text ≠ "" := by
  intro blocks m hm
  unfold parse_word_document at hm
  rcases List.mem_map.mp hm with ⟨m0, hm0, rfl⟩
  show m0.text ≠ ""
  rcases List.mem_append.mp hm0 with h1 | h1
  · exact foldl_parseStep_texts blocks ([], none) (by intro x hx; simp at hx) m0 h1
  · rcases hcur : (blocks.foldl parseStep ([], none)).2 with _ | cur
    · rw [hcur] at h1
      simp at h1
    · rw [hcur] at h1
      dsimp only at h1
      split at h1
      case isTrue hct =>
        rw [List.mem_singleton.mp h1]
        exact hct
      · simp at h1

/-- Witness for C9: a concrete two-block document yields one message, with
non-empty body text. -/
theorem c9_witness :
    c9Msg ∈ parse_word_document c9Blocks ∧ c9Msg.text ≠ "" :=
  ⟨by decide, c9_nonempty_text c9Blocks c9Msg (by decide)⟩

/-- C10: text blocks before the first message-start marker (or divider)
are ignored entirely: they contribute no message, body text, metadata or
tags to the output. -/
theorem c10_preamble_ignored :
    ∀ (pre rest : List String),
      (∀ b ∈ pre, is_message_start (pyStrip b) = false) →
      parse_word_document (pre ++ rest) = parse_word_document rest := by
  intro pre rest h
  unfold parse_word_document
  rw [List.foldl_append, foldl_parseStep_inert pre h]

/-- Witness for C10: two ordinary preamble blocks change nothing in the
parse of the remaining document. -/
theorem c10_witness :
    (∀ b ∈ wPre, is_message_start (pyStrip b) = false) ∧
      parse_word_document (wPre ++ c9Blocks) = parse_word_document c9Blocks :=
  ⟨by decide, c10_preamble_ignored wPre c9Blocks (by decide)⟩

/-- C1 counterexample: on c1Msgs the grouper emits a pair whose answer
thread is empty (no official answer replies into the recomputed question
thread), contradicting the claim that the answer thread of every emitted
pair is non-empty. -/
theorem c1_counterexample :
    c1Pair ∈ group_questions_answers c1Msgs ∧
    c1Pair.answer_ids = [] ∧ c1Pair.answer_text = "" ∧ c1Pair.answer_date = "" ∧
    c1Pair.question_ids ≠ [] :=
  ⟨by decide, rfl, rfl, rfl, by decide⟩

/-- C1 (amended): every emitted pair is driven by an official-answer
message with a nonempty, resolving reply target and a non-empty question
thread; the answer thread is non-empty whenever the resolved reply target
itself belongs to the question thread (in particular whenever its own
reply target is empty), but may be empty when the target is excluded from
the thread, e.g. when the target is itself an official answer. -/
theorem c1_thread_origin :
    ∀ (msgs : List ChatMessage) (p : QAPair), p ∈ group_questions_answers msgs →
      ∃ a, a ∈ msgs ∧ a.is_violetta_answer = true ∧ EmittedFrom msgs a p ∧
        ∀ start, messagesById msgs a.reply_to = some start →
          start ∈ find_question_thread msgs a.reply_to →
          find_answer_thread msgs (find_question_thread msgs a.reply_to) ≠ [] := by
  intro msgs p hp
  rcases mem_group msgs p hp with ⟨a, ha, hva, hem⟩
  refine ⟨a, ha, hva, hem, ?_⟩
  intro start hlook hmem
  rcases messagesById_some hlook with ⟨_, hsid, hne⟩
  have hid : a.reply_to ∈ nonemptyIds (find_question_thread msgs a.reply_to) := by
    unfold nonemptyIds
    refine List.mem_map.mpr ⟨start, List.mem_filter.mpr ⟨hmem, ?_⟩, hsid⟩
    simp [hsid, hne]
  have hmemf : a ∈ msgs.filter (fun m => m.is_violetta_answer = true ∧
      m.reply_to ∈ nonemptyIds (find_question_thread msgs a.reply_to)) :=
    List.mem_filter.mpr ⟨ha, by simp [hva, hid]⟩
  intro hnil
  have hperm := find_answer_thread_perm msgs (find_question_thread msgs a.reply_to)
  rw [hnil] at hperm
  rw [hperm.symm.eq_nil] at hmemf
  simp at hmemf

/-- Witness for C1 (amended) on the worked example. -/
theorem c1_witness :
    wPair ∈ group_questions_answers wMsgs ∧
    ∃ a, a ∈ wMsgs ∧ a.is_violetta_answer = true ∧ EmittedFrom wMsgs a wPair ∧
      ∀ start, messagesById wMsgs a.reply_to = some start →
        start ∈ find_question_thread wMsgs a.reply_to →
        find_answer_thread wMsgs (find_question_thread wMsgs a.reply_to) ≠ [] :=
  ⟨by decide, c1_thread_origin wMsgs wPair (by decide)⟩

/-- C2 counterexample: the block of c2Block matches none of the four
metadata patterns and is not purely decorative (it contains ordinary
words), yet processing it leaves the accumulator unchanged: it is skipped
because a divider glyph occurs somewhere inside it. -/
theorem c2_counterexample :
    process_message_content c2Msg c2Block = c2Msg ∧
    c2Msg.text = "" ∧ c2Msg.tags = [] ∧
    findSender c2Block = none ∧ findDate c2Block = none ∧
    findId c2Block = none ∧ findReply c2Block = none ∧
    ¬ ∀ c ∈ c2Block.data, c = '―' ∨ c = '─' :=
  ⟨by decide, rfl, rfl, by decide, by decide, by decide, by decide, by decide⟩

/-- C2 (amended): a block containing any divider glyph sequence anywhere —
not only a purely decorative block — contributes nothing and is skipped;
a block with no divider glyph matching none of the four metadata patterns
is appended to the body with a line-break separator if the body is already
non-empty, and scanned for hashtag tokens. -/
theorem c2_content_blocks :
    ∀ (m : ChatMessage) (t : String),
      (hasDivider t = true → process_message_content m t = m) ∧
      (hasDivider t = false →
        findSender t = none → findDate t = none → findId t = none → findReply t = none →
        process_message_content m t =
          { m with
            text := if m.text = "" then t else m.text ++ "\n" ++ t,
            tags := m.tags ++ pyDedup (findTags t) }) := by
  intro m t
  constructor
  · intro hd
    unfold process_message_content
    rw [if_pos hd]
  · intro hd hs hdt hid hr
    unfold process_message_content
    rw [if_neg (by simp [hd])]
    simp only [hs, hdt, hid, hr, ite_self]
    simp

/-- Witness for C2 (amended): a plain block with one hashtag becomes the
body and contributes the tag. -/
theorem c2_witness :
    process_message_content c2wMsg c2wBlock =
      { c2wMsg with text := "привет #тема", tags := ["#тема"] } :=
  ((c2_content_blocks c2wMsg c2wBlock).2 (by decide) (by decide) (by decide) (by decide)
      (by decide)).trans (by decide)

/-- C3: when an official answer's reply target resolves, an empty parent
reply target yields the singleton thread; otherwise the thread is exactly
(up to order) the messages replying to the same parent from the same
sender that are not official answers, sorted by ascending numeric
sequence number (non-numeric sequence numbers counted as zero by seqNum). -/
theorem c3_question_thread :
    ∀ (msgs : List ChatMessage) (a start : ChatMessage),
      a.is_violetta_answer = true →
      messagesById msgs a.reply_to = some start →
      (start.reply_to = "" → find_question_thread msgs a.reply_to = [start]) ∧
      (start.reply_to ≠ "" →
        (find_question_thread msgs a.reply_to).Perm (msgs.filter (fun m =>
          m.reply_to = start.reply_to ∧ m.sender = start.sender ∧
            m.is_violetta_answer = false)) ∧
        (find_question_thread msgs a.reply_to).Pairwise
          (fun x y => seqNum x ≤ seqNum y)) := by
  intro msgs a start _ hlook
  constructor
  · intro h0
    simp only [find_question_thread, hlook, if_pos h0]
  · intro h0
    exact ⟨find_question_thread_perm hlook h0,
      pairwise_find_question_thread msgs a.reply_to⟩

/-- Witness for C3 on the worked example: the official answer replies to
wQ2, whose parent is the root; the thread is the two sibling question
messages. -/
theorem c3_witness :
    messagesById wMsgs wAns.reply_to = some wQ2 ∧
    wAns.is_violetta_answer = true ∧
    ((wQ2.reply_to = "" → find_question_thread wMsgs wAns.reply_to = [wQ2]) ∧
      (wQ2.reply_to ≠ "" →
        (find_question_thread wMsgs wAns.reply_to).Perm (wMsgs.filter (fun m =>
          m.reply_to = wQ2.reply_to ∧ m.sender = wQ2.sender ∧
            m.is_violetta_answer = false)) ∧
        (find_question_thread wMsgs wAns.reply_to).Pairwise
          (fun x y => seqNum x ≤ seqNum y))) :=
  ⟨by decide, by decide, c3_question_thread wMsgs wAns wQ2 (by decide) (by decide)⟩

/-- C4: every emitted pair comes from a question thread (sorted by
sequence number) whose answer thread is exactly, up to the same sorting,
the official answers of the full list replying into the thread's nonempty
ids; the id fields are the nonempty ids of the two threads in that sorted
order. -/
theorem c4_answer_thread :
    ∀ (msgs : List ChatMessage) (p : QAPair), p ∈ group_questions_answers msgs →
      ∃ rid, rid ≠ "" ∧ find_question_thread msgs rid ≠ [] ∧
        p = create_qa_pair (find_question_thread msgs rid)
              (find_answer_thread msgs (find_question_thread msgs rid)) ∧
        p.question_ids = nonemptyIds (find_question_thread msgs rid) ∧
        p.answer_ids = nonemptyIds (find_answer_thread msgs (find_question_thread msgs rid)) ∧
        (find_answer_thread msgs (find_question_thread msgs rid)).Perm
          (msgs.filter (fun m => m.is_violetta_answer = true ∧
            m.reply_to ∈ nonemptyIds (find_question_thread msgs rid))) ∧
        (find_question_thread msgs rid).Pairwise (fun x y => seqNum x ≤ seqNum y) ∧
        (find_answer_thread msgs (find_question_thread msgs rid)).Pairwise
          (fun x y => seqNum x ≤ seqNum y) := by
  intro msgs p hp
  rcases mem_group msgs p hp with ⟨a, _, _, hne, hqt, hpe⟩
  exact ⟨a.reply_to, hne, hqt, hpe, by subst hpe; rfl, by subst hpe; rfl,
    find_answer_thread_perm _ _, pairwise_find_question_thread _ _,
    pairwise_find_answer_thread _ _⟩

/-- Witness for C4 on the worked example. -/
theorem c4_witness :
    wPair ∈ group_questions_answers wMsgs ∧
    ∃ rid, rid ≠ "" ∧ find_question_thread wMsgs rid ≠ [] ∧
      wPair = create_qa_pair (find_question_thread wMsgs rid)
            (find_answer_thread wMsgs (find_question_thread wMsgs rid)) ∧
      wPair.question_ids = nonemptyIds (find_question_thread wMsgs rid) ∧
      wPair.answer_ids = nonemptyIds (find_answer_thread wMsgs (find_question_thread wMsgs rid)) ∧
      (find_answer_thread wMsgs (find_question_thread wMsgs rid)).Perm
        (wMsgs.filter (fun m => m.is_violetta_answer = true ∧
          m.reply_to ∈ nonemptyIds (find_question_thread wMsgs rid))) ∧
      (find_question_thread wMsgs rid).Pairwise (fun x y => seqNum x ≤ seqNum y) ∧
      (find_answer_thread wMsgs (find_question_thread wMsgs rid)).Pairwise
        (fun x y => seqNum x ≤ seqNum y) :=
  ⟨by decide, c4_answer_thread wMsgs wPair (by decide)⟩

/-- C5: within one run, the canonical keys (sorted nonempty question ids)
of the emitted pairs are pairwise distinct: a thread never produces two
pairs. -/
theorem c5_unique_keys :
    ∀ msgs : List ChatMessage,
      ((group_questions_answers msgs).map (fun p => sortLe strLe p.question_ids)).Nodup := by
  intro msgs
  unfold group_questions_answers
  exact (foldl_groupStep_keysInv msgs _ ([], []) ⟨by simp, by simp⟩).1

/-- C6: an official answer whose reply target is not a known id changes
nothing: its loop step is the identity on the grouping state, so the fold
simply continues with the remaining answers. -/
theorem c6_unresolved_skipped :
    ∀ (msgs : List ChatMessage) (a : ChatMessage),
      messagesById msgs a.reply_to = none →
      ∀ (st : List QAPair × List (List String)) (rest : List ChatMessage),
        groupStep msgs st a = st ∧
        (a :: rest).foldl (groupStep msgs) st = rest.foldl (groupStep msgs) st := by
  intro msgs a hlook st rest
  have hstep : groupStep msgs st a = st := by
    by_cases h0 : a.reply_to = ""
    · simp [groupStep, h0]
    · have hq : find_question_thread msgs a.reply_to = [] := by
        simp only [find_question_thread, hlook]
      simp [groupStep, h0, hq]
  exact ⟨hstep, by rw [List.foldl_cons, hstep]⟩

/-- Witness for C6: an answer replying to the unknown id 99. -/
theorem c6_witness :
    messagesById wMsgs wBad.reply_to = none ∧
    groupStep wMsgs ([], []) wBad = ([], []) ∧
    (wBad :: []).foldl (groupStep wMsgs) ([], []) = List.foldl (groupStep wMsgs) ([], []) [] :=
  ⟨by decide, (c6_unresolved_skipped wMsgs wBad (by decide) ([], []) []).1,
    (c6_unresolved_skipped wMsgs wBad (by decide) ([], []) []).2⟩

/-- C7: the tags of every emitted pair are exactly the tags occurring in
some answer-thread message, with no duplicates — question-thread tags are
not carried over. -/
theorem c7_tags_union :
    ∀ (msgs : List ChatMessage) (p : QAPair), p ∈ group_questions_answers msgs →
      ∃ rid, p = create_qa_pair (find_question_thread msgs rid)
            (find_answer_thread msgs (find_question_thread msgs rid)) ∧
        p.tags.Nodup ∧
        ∀ t, t ∈ p.tags ↔
          ∃ m, m ∈ find_answer_thread msgs (find_question_thread msgs rid) ∧ t ∈ m.tags := by
  intro msgs p hp
  rcases mem_group msgs p hp with ⟨a, _, _, _, _, hpe⟩
  subst hpe
  refine ⟨a.reply_to, rfl, nodup_pyDedup _, ?_⟩
  intro t
  show t ∈ allAnswerTags _ ↔ _
  unfold allAnswerTags
  rw [mem_pyDedup, mem_foldl_tags]
  simp

/-- Witness for C7 on the worked example. -/
theorem c7_witness :
    wPair ∈ group_questions_answers wMsgs ∧
    ∃ rid, wPair = create_qa_pair (find_question_thread wMsgs rid)
          (find_answer_thread wMsgs (find_question_thread wMsgs rid)) ∧
      wPair.tags.Nodup ∧
      ∀ t, t ∈ wPair.tags ↔
        ∃ m, m ∈ find_answer_thread wMsgs (find_question_thread wMsgs rid) ∧ t ∈ m.tags :=
  ⟨by decide, c7_tags_union wMsgs wPair (by decide)⟩

/-- C8: the sorted tag list is a permutation of the input; when a tag
carrying the official-answer marker is present, the output starts with
such a tag followed by the remaining tags in case-insensitive
alphabetical order; with no marker present the whole output is in that
order. -/
theorem c8_tag_pinning :
    ∀ tags : List String,
      (sort_tags_alphabetical tags).Perm tags ∧
      ((∃ t, t ∈ tags ∧ hasMarker t = true) →
        ∃ t0 rest, sort_tags_alphabetical tags = t0 :: rest ∧ hasMarker t0 = true ∧
          rest.Pairwise (fun x y => lowerLe x y = true)) ∧
      ((∀ t ∈ tags, hasMarker t = false) →
        (sort_tags_alphabetical tags).Pairwise (fun x y => lowerLe x y = true)) := by
  intro tags
  rcases hfind : tags.find? hasMarker with _ | t0
  · have hsort : sort_tags_alphabetical tags = sortLe lowerLe tags := by
      simp only [sort_tags_alphabetical, hfind]
    refine ⟨hsort ▸ sortLe_perm _ _, ?_, ?_⟩
    · rintro ⟨t, ht, hm⟩
      exact absurd hm (by simpa using List.find?_eq_none.mp hfind t ht)
    · intro _
      rw [hsort]
      exact pairwise_sortLe lowerLe lowerLe_trans lowerLe_total tags
  · have hsort : sort_tags_alphabetical tags = t0 :: sortLe lowerLe (tags.erase t0) := by
      simp only [sort_tags_alphabetical, hfind]
    have hmem : t0 ∈ tags := List.mem_of_find?_eq_some hfind
    have hm0 : hasMarker t0 = true := List.find?_some hfind
    refine ⟨?_, ?_, ?_⟩
    · rw [hsort]
      exact ((sortLe_perm _ _).cons t0).trans (List.perm_cons_erase hmem).symm
    · intro _
      exact ⟨t0, sortLe lowerLe (tags.erase t0), hsort, hm0,
        pairwise_sortLe lowerLe lowerLe_trans lowerLe_total _⟩
    · intro hall
      rw [hall t0 hmem] at hm0
      exact absurd hm0 (by simp)

/-- Witness for C8 on a concrete tag set. -/
theorem c8_witness :
    (sort_tags_alphabetical wTags).Perm wTags ∧
    sort_tags_alphabetical wTags = ["#ответвиолетты", "#A", "#b"] ∧
    (∃ t0 rest, sort_tags_alphabetical wTags = t0 :: rest ∧ hasMarker t0 = true ∧
      rest.Pairwise (fun x y => lowerLe x y = true)) :=
  ⟨(c8_tag_pinning wTags).1, by decide,
    (c8_tag_pinning wTags).2.1 ⟨"#ответвиолетты", by decide, by decide⟩⟩

end MgLibrary
